import Mathlib

/-!
# Verification of the device/surface negotiation logic of vulkan-playground

Shallow embedding of the device-selection and swapchain-negotiation code of
`src/main.cpp` (current revision) and of the queue-family selection loop of the
earliest revision of the program.  Vulkan driver answers (queue-family
capability bits, surface-support query results, device-type classification,
surface capabilities, format and present-mode lists) are modelled as explicit
inputs; the handles returned by the driver are modelled as natural numbers,
with `Option.none` playing the role of the C++ null handle.
-/

set_option autoImplicit false

namespace VulkanPlayground

/-- One queue family of a physical device, as the scan loop observes it:
`graphics` is the result of testing `queueFlags & VK_QUEUE_GRAPHICS_BIT`,
`present` is the answer of `vkGetPhysicalDeviceSurfaceSupportKHR` for this
family index against the surface. -/
structure QueueFamily where
  graphics : Bool
  present : Bool
deriving DecidableEq, Repr

/-- An enumerated physical device together with the driver answers the
selection code queries about it: its (non-null) handle, its queue-family
properties in enumeration order, and whether `vkGetPhysicalDeviceProperties`
reports `VK_PHYSICAL_DEVICE_TYPE_DISCRETE_GPU`. -/
structure PhysicalDevice where
  handle : Nat
  queueFamilies : List QueueFamily
  discrete : Bool
deriving DecidableEq, Repr

/-- The C++ struct `PhysicalDeviceInfo` of `main.cpp` (lines 200-205).
`device` is an `Option Nat`: `none` models the null `VkPhysicalDevice` of a
default-constructed struct. -/
structure PhysicalDeviceInfo where
  device : Option Nat
  graphics_family_idx : Option Nat
  present_family_idx : Option Nat
  discrete : Bool
deriving DecidableEq, Repr

/-- `PhysicalDeviceInfo{}`: value-initialised struct (null handle, empty
optionals, `discrete = false`). -/
def emptyInfo : PhysicalDeviceInfo :=
  { device := none, graphics_family_idx := none, present_family_idx := none,
    discrete := false }

/-- The queue-family scan loop of `main.cpp` lines 227-242: walk the family
list with a running counter `idx`, overwriting `graphics_family_idx` whenever
the family advertises graphics and `present_family_idx` whenever the surface
query answered true.  The counter is incremented after both checks. -/
def scanFamilies : List QueueFamily → Nat → PhysicalDeviceInfo → PhysicalDeviceInfo
  | [], _, info => info
  | f :: rest, idx, info =>
      let info1 := if f.graphics then
        { info with graphics_family_idx := some idx } else info
      let info2 := if f.present then
        { info1 with present_family_idx := some idx } else info1
      scanFamilies rest (idx + 1) info2

/-- Per-device info construction of `main.cpp` lines 213-249: store the handle,
scan the queue families starting at index 0, then record the discrete-GPU
classification. -/
def mkDeviceInfo (d : PhysicalDevice) : PhysicalDeviceInfo :=
  let info := scanFamilies d.queueFamilies 0
    { emptyInfo with device := some d.handle }
  { info with discrete := d.discrete }

/-- The `devices_info` vector of `main.cpp`: it is constructed as
`std::vector<PhysicalDeviceInfo>(device_count)` (line 212), which makes
`device_count` value-initialised entries, and the per-device infos are then
appended with `emplace_back` (line 248). -/
def devicesInfo (ds : List PhysicalDevice) : List PhysicalDeviceInfo :=
  List.replicate ds.length emptyInfo ++ ds.map mkDeviceInfo

/-- The suitability test of the selection loop (`main.cpp` lines 253-254):
both optional family indices are engaged. -/
def suitableInfo (i : PhysicalDeviceInfo) : Bool :=
  i.graphics_family_idx.isSome && i.present_family_idx.isSome

/-- The selection loop of `main.cpp` lines 252-258: overwrite the accumulator
with any candidate that has both indices, as long as the accumulator is not a
discrete device. -/
def selectLoop : List PhysicalDeviceInfo → PhysicalDeviceInfo → PhysicalDeviceInfo
  | [], acc => acc
  | d :: rest, acc =>
      selectLoop rest (if suitableInfo d && !acc.discrete then d else acc)

/-- Device selection of `main.cpp` lines 251-258: fold the selection loop over
`devices_info` starting from a value-initialised `PhysicalDeviceInfo{}`. -/
def selectDevice (ds : List PhysicalDevice) : PhysicalDeviceInfo :=
  selectLoop (devicesInfo ds) emptyInfo

/-- A device has a graphics-capable queue family. -/
def hasGraphicsFamily (d : PhysicalDevice) : Bool :=
  d.queueFamilies.any (fun f => f.graphics)

/-- A device has a presentation-capable queue family. -/
def hasPresentFamily (d : PhysicalDevice) : Bool :=
  d.queueFamilies.any (fun f => f.present)

/-- A device that would pass the suitability test of the selection loop. -/
def suitableDev (d : PhysicalDevice) : Bool :=
  hasGraphicsFamily d && hasPresentFamily d

/-- Index of the last element of the list satisfying `p`, or `none`.  Used to
characterise the overwrite-in-loop behaviour of the queue-family scan. -/
def lastIdxAux (p : QueueFamily → Bool) : List QueueFamily → Option Nat
  | [] => none
  | f :: rest =>
      match lastIdxAux p rest with
      | some k => some (k + 1)
      | none => if p f then some 0 else none

/-! ## Surface negotiation (`main.cpp` lines 315-399) -/

/-- `VkExtent2D`. -/
structure Extent2D where
  width : Nat
  height : Nat
deriving DecidableEq, Repr

/-- The fields of `VkSurfaceCapabilitiesKHR` the program reads. -/
structure SurfaceCapabilities where
  minImageCount : Nat
  maxImageCount : Nat
  currentExtent : Extent2D
  currentTransform : Nat
deriving DecidableEq, Repr

/-- `VkSurfaceFormatKHR`: a pixel format paired with a color space, both
Vulkan enum values. -/
structure SurfaceFormat where
  format : Nat
  colorSpace : Nat
deriving DecidableEq, Repr

/-- Vulkan enum value of `VK_FORMAT_B8G8R8A8_SRGB`. -/
def formatB8G8R8A8Srgb : Nat := 50

/-- Vulkan enum value of `VK_COLOR_SPACE_SRGB_NONLINEAR_KHR`. -/
def colorSpaceSrgbNonlinear : Nat := 0

/-- Vulkan enum value of `VK_PRESENT_MODE_FIFO_KHR`. -/
def presentModeFifo : Nat := 2

/-- `std::numeric_limits<uint32_t>::max()`. -/
def uint32Max : Nat := 2 ^ 32 - 1

/-- The preferred-format test of `main.cpp` lines 353-354. -/
def isPreferredFormat (f : SurfaceFormat) : Bool :=
  f.format == formatB8G8R8A8Srgb && f.colorSpace == colorSpaceSrgbNonlinear

/-- The format-selection loop of `main.cpp` lines 352-362: break out with the
first exactly-preferred format; otherwise remember the first format seen
(`format_selected` latch) and keep scanning. -/
def selectFormatLoop : List SurfaceFormat → SurfaceFormat → Bool → SurfaceFormat
  | [], cur, _ => cur
  | f :: rest, cur, selected =>
      if isPreferredFormat f then f
      else if !selected then selectFormatLoop rest f true
      else selectFormatLoop rest cur selected

/-- Format selection starting from a value-initialised `VkSurfaceFormatKHR{}`
with the `format_selected` flag false (`main.cpp` lines 350-362). -/
def selectFormat (formats : List SurfaceFormat) : SurfaceFormat :=
  selectFormatLoop formats { format := 0, colorSpace := 0 } false

/-- The image-count computation of `main.cpp` lines 369-373:
`minImageCount + 1` in 32-bit unsigned arithmetic, then clamped down to
`maxImageCount` when that bound is nonzero and exceeded. -/
def imageCount (caps : SurfaceCapabilities) : Nat :=
  let ic := (caps.minImageCount + 1) % (2 ^ 32)
  if 0 < caps.maxImageCount && caps.maxImageCount < ic then caps.maxImageCount
  else ic

/-- `VkSharingMode` values used by the program. -/
inductive SharingMode where
  | exclusive
  | concurrent
deriving DecidableEq, Repr

/-- The fields of `VkSwapchainCreateInfoKHR` that the negotiation computes
(`main.cpp` lines 375-399); the queue-family index array is kept as a list. -/
structure SwapchainCreateInfo where
  minImageCount : Nat
  imageFormat : Nat
  imageColorSpace : Nat
  imageExtent : Extent2D
  imageSharingMode : SharingMode
  queueFamilyIndexCount : Nat
  queueFamilyIndices : List Nat
  preTransform : Nat
  presentMode : Nat
deriving DecidableEq, Repr

/-- The two fatal negotiation outcomes of `main.cpp`: the
insufficient-swap-chain-support abort at lines 344-347 and the
current-extent-sentinel abort at lines 364-368. -/
inductive NegotiationError where
  | insufficientSupport
  | extentUnset
deriving DecidableEq, Repr

/-- Surface negotiation, `main.cpp` lines 344-399: abort when the format or
present-mode list is empty; fix `VK_PRESENT_MODE_FIFO_KHR`; select the surface
format; abort when `currentExtent.width` is the `uint32_t` sentinel; compute
the image count; assemble the swapchain create info.  `g` and `p` are the
dereferenced `graphics_family_idx` and `present_family_idx` of the selected
device (lines 375-377, 389-390). -/
def negotiateSurface (caps : SurfaceCapabilities) (formats : List SurfaceFormat)
    (presentModes : List Nat) (g p : Nat) :
    Except NegotiationError SwapchainCreateInfo :=
  if formats.isEmpty || presentModes.isEmpty then
    .error .insufficientSupport
  else
    let present_mode := presentModeFifo
    let surface_format := selectFormat formats
    if caps.currentExtent.width == uint32Max then
      .error .extentUnset
    else
      .ok { minImageCount := imageCount caps
            imageFormat := surface_format.format
            imageColorSpace := surface_format.colorSpace
            imageExtent := caps.currentExtent
            imageSharingMode :=
              if g = p then .exclusive else .concurrent
            queueFamilyIndexCount := 2
            queueFamilyIndices := [g, p]
            preTransform := caps.currentTransform
            presentMode := present_mode }

end VulkanPlayground

namespace VulkanPlaygroundRev0

/-!
## Earliest revision: queue-family selection with the pre-incremented counter

Embedding of the device-selection loop of the earliest revision of the
program (the first unnamed source file), whose inner loop increments the
family counter `idx` before testing the graphics bit. -/

/-- One queue family as the earliest revision observes it: only the graphics
bit is queried. -/
structure QueueFamily0 where
  graphics : Bool
deriving DecidableEq, Repr

/-- An enumerated physical device for the earliest revision. -/
structure PhysicalDevice0 where
  handle : Nat
  queueFamilies : List QueueFamily0
  discrete : Bool
deriving DecidableEq, Repr

/-- The selection state of the earliest revision: the `physical_device`
handle (null before any selection) and the `queue_family_idx` counter value
recorded at selection time (value-initialised to 0). -/
structure Selection0 where
  device : Option Nat
  queueFamilyIdx : Nat
deriving DecidableEq, Repr

/-- Initial state: `physical_device` null, `queue_family_idx` zero. -/
def initSelection0 : Selection0 := { device := none, queueFamilyIdx := 0 }

/-- The inner family loop of the earliest revision: `idx++` runs first; then,
if the family advertises graphics, the candidate is selected (recording the
already-incremented `idx`) when no device is held yet, or when the candidate
is a discrete GPU; selection breaks out of the family loop. -/
def scanRev0 (cand : PhysicalDevice0) :
    List QueueFamily0 → Nat → Selection0 → Selection0
  | [], _, sel => sel
  | f :: rest, idx, sel =>
      let idx1 := idx + 1
      if f.graphics then
        if sel.device = none then
          { device := some cand.handle, queueFamilyIdx := idx1 }
        else if cand.discrete then
          { device := some cand.handle, queueFamilyIdx := idx1 }
        else scanRev0 cand rest idx1 sel
      else scanRev0 cand rest idx1 sel

/-- The outer device loop of the earliest revision: run the family scan for
each enumerated device in order, starting from the null selection. -/
def selectRev0 (devices : List PhysicalDevice0) : Selection0 :=
  devices.foldl (fun sel d => scanRev0 d d.queueFamilies 0 sel) initSelection0

end VulkanPlaygroundRev0

namespace VulkanPlayground

/-! ## Format selection -/

/-- If some format in the list is the preferred one, the loop returns a
preferred format, from any starting state. -/
theorem selectFormatLoop_preferred (l : List SurfaceFormat) :
    ∀ (cur : SurfaceFormat) (sel : Bool),
    (∃ f ∈ l, isPreferredFormat f = true) →
    isPreferredFormat (selectFormatLoop l cur sel) = true := by
  induction l with
  | nil =>
      intro cur sel h
      simp at h
  | cons f rest ih =>
      intro cur sel h
      by_cases hf : isPreferredFormat f = true
      · simp [selectFormatLoop, hf]
      · have hrest : ∃ g ∈ rest, isPreferredFormat g = true := by
          rcases h with ⟨g, hg, hgp⟩
          rcases List.mem_cons.mp hg with rfl | hmem
          · exact absurd hgp hf
          · exact ⟨g, hmem, hgp⟩
        by_cases hs : sel = true
        · simpa [selectFormatLoop, hf, hs] using ih cur true hrest
        · simp only [Bool.not_eq_true] at hs
          simpa [selectFormatLoop, hf, hs] using ih f true hrest

/-- If no format in the list is preferred, the loop with the
`format_selected` latch set keeps the current format. -/
theorem selectFormatLoop_no_preferred (l : List SurfaceFormat) :
    ∀ cur : SurfaceFormat,
    (∀ f ∈ l, isPreferredFormat f = false) →
    selectFormatLoop l cur true = cur := by
  induction l with
  | nil => intro cur _; rfl
  | cons f rest ih =>
      intro cur h
      have hf : isPreferredFormat f = false := h f (List.mem_cons_self f rest)
      have hrest : ∀ g ∈ rest, isPreferredFormat g = false :=
        fun g hg => h g (List.mem_cons_of_mem f hg)
      simpa [selectFormatLoop, hf] using ih cur hrest

/-- C5. For every non-empty list of surface formats, format selection returns
the 8-bit BGRA sRGB format paired with the non-linear sRGB color space
whenever some element of the list matches both, regardless of its position in
the list; otherwise it returns the first format in the list. -/
theorem format_selection_spec (f0 : SurfaceFormat) (fs : List SurfaceFormat) :
    ((∃ f ∈ f0 :: fs, isPreferredFormat f = true) →
      (selectFormat (f0 :: fs)).format = formatB8G8R8A8Srgb ∧
      (selectFormat (f0 :: fs)).colorSpace = colorSpaceSrgbNonlinear) ∧
    ((∀ f ∈ f0 :: fs, isPreferredFormat f = false) →
      selectFormat (f0 :: fs) = f0) := by
  constructor
  · intro h
    have := selectFormatLoop_preferred (f0 :: fs)
      { format := 0, colorSpace := 0 } false h
    simp only [selectFormat]
    simp only [isPreferredFormat, Bool.and_eq_true, beq_iff_eq] at this
    exact this
  · intro h
    have hf : isPreferredFormat f0 = false := h f0 (List.mem_cons_self f0 fs)
    have hrest : ∀ g ∈ fs, isPreferredFormat g = false :=
      fun g hg => h g (List.mem_cons_of_mem f0 hg)
    simpa [selectFormat, selectFormatLoop, hf] using
      selectFormatLoop_no_preferred fs f0 hrest

/-- Witness for C5: the spec examples.  With `[{R8G8B8A8_SRGB, linear},
{B8G8R8A8_SRGB, sRGB-nonlinear}]` (enum values 43/1 and 50/0) the preferred
pair is selected from second position; with only `[{R8G8B8A8_SRGB, linear}]`
the first format is returned. -/
theorem format_selection_spec_witness :
    (selectFormat [⟨43, 1⟩, ⟨50, 0⟩]).format = formatB8G8R8A8Srgb ∧
    (selectFormat [⟨43, 1⟩, ⟨50, 0⟩]).colorSpace = colorSpaceSrgbNonlinear ∧
    selectFormat [⟨43, 1⟩] = ⟨43, 1⟩ :=
  ⟨((format_selection_spec ⟨43, 1⟩ [⟨50, 0⟩]).1
      ⟨⟨50, 0⟩, by decide, by decide⟩).1,
   ((format_selection_spec ⟨43, 1⟩ [⟨50, 0⟩]).1
      ⟨⟨50, 0⟩, by decide, by decide⟩).2,
   (format_selection_spec ⟨43, 1⟩ []).2 (by decide)⟩

/-! ## Image count -/

/-- Counterexample for C6 as stated: at `minImageCount = 2^32 - 1` the
program's `uint32_t` addition wraps to 0, so with `maxImageCount = 0` the
negotiated count is 0, not `minImageCount + 1`, and with `maxImageCount = 5`
(nonzero and exceeded by `minImageCount + 1`) the negotiated count is 0, not
`maxImageCount`. -/
theorem image_count_wrap_cex :
    imageCount ⟨2 ^ 32 - 1, 0, ⟨800, 600⟩, 0⟩ = 0 ∧
    imageCount ⟨2 ^ 32 - 1, 0, ⟨800, 600⟩, 0⟩ ≠ (2 ^ 32 - 1) + 1 ∧
    imageCount ⟨2 ^ 32 - 1, 5, ⟨800, 600⟩, 0⟩ = 0 ∧
    imageCount ⟨2 ^ 32 - 1, 5, ⟨800, 600⟩, 0⟩ ≠ 5 ∧
    ¬((2 ^ 32 - 1) + 1 ≤ 5) := by
  decide

/-- C6 (amended). For every surface capabilities value, the negotiated image
count equals the `uint32_t` wrapping sum `(minImageCount + 1) mod 2^32` when
`maxImageCount` is zero or that sum does not exceed `maxImageCount`, and
equals `maxImageCount` otherwise. -/
theorem image_count_spec_uint32 (caps : SurfaceCapabilities) :
    ((caps.maxImageCount = 0 ∨
        (caps.minImageCount + 1) % (2 ^ 32) ≤ caps.maxImageCount) →
      imageCount caps = (caps.minImageCount + 1) % (2 ^ 32)) ∧
    (caps.maxImageCount ≠ 0 →
      caps.maxImageCount < (caps.minImageCount + 1) % (2 ^ 32) →
      imageCount caps = caps.maxImageCount) := by
  constructor
  · intro hcase
    simp only [imageCount]
    rw [if_neg]
    simp only [Bool.and_eq_true, decide_eq_true_eq, not_and]
    omega
  · intro h1 h2
    simp only [imageCount]
    rw [if_pos]
    simp only [Bool.and_eq_true, decide_eq_true_eq]
    omega

/-- Witness for C6 (amended): the spec examples, `minImageCount=2,
maxImageCount=0` negotiates `(2 + 1) mod 2^32 = 3` images and
`minImageCount=2, maxImageCount=2` clamps to 2. -/
theorem image_count_spec_uint32_witness :
    imageCount ⟨2, 0, ⟨800, 600⟩, 0⟩ = (2 + 1) % (2 ^ 32) ∧
    imageCount ⟨2, 2, ⟨800, 600⟩, 0⟩ = 2 :=
  ⟨(image_count_spec_uint32 ⟨2, 0, ⟨800, 600⟩, 0⟩).1 (Or.inl rfl),
   (image_count_spec_uint32 ⟨2, 2, ⟨800, 600⟩, 0⟩).2 (by decide) (by decide)⟩

/-! ## Sharing mode, extent and negotiation failure -/

/-- C7. Whenever negotiation produces a swapchain configuration, the sharing
mode is exclusive when the graphics family index equals the presentation
family index and concurrent otherwise, and in the concurrent case the
queue-family index list consists of exactly the graphics index and the
presentation index, two entries. -/
theorem swapchain_sharing_mode_spec (caps : SurfaceCapabilities)
    (formats : List SurfaceFormat) (modes : List Nat) (g p : Nat)
    (cfg : SwapchainCreateInfo)
    (h : negotiateSurface caps formats modes g p = .ok cfg) :
    (g = p → cfg.imageSharingMode = SharingMode.exclusive) ∧
    (g ≠ p → cfg.imageSharingMode = SharingMode.concurrent ∧
      cfg.queueFamilyIndices = [g, p] ∧ cfg.queueFamilyIndices.length = 2) := by
  unfold negotiateSurface at h
  split at h
  · exact absurd h (by simp)
  · split at h
    · exact absurd h (by simp)
    · simp only [Except.ok.injEq] at h
      subst h
      constructor
      · intro hgp
        simp [hgp]
      · intro hgp
        simp [hgp]

/-- Witness for C7: a concrete negotiation with distinct family indices 1 and
2 yields concurrent sharing over exactly `[1, 2]`. -/
theorem swapchain_sharing_mode_spec_witness :
    ∃ cfg, negotiateSurface ⟨2, 0, ⟨800, 600⟩, 0⟩ [⟨50, 0⟩] [2] 1 2 =
        .ok cfg ∧
      cfg.imageSharingMode = SharingMode.concurrent ∧
      cfg.queueFamilyIndices = [1, 2] ∧ cfg.queueFamilyIndices.length = 2 := by
  refine ⟨_, rfl, ?_⟩
  exact (swapchain_sharing_mode_spec ⟨2, 0, ⟨800, 600⟩, 0⟩ [⟨50, 0⟩] [2] 1 2 _
    rfl).2 (by decide)

/-- C9. The swapchain extent is taken directly and unmodified from the
capabilities' current-extent field, and if the current-extent width equals
the all-bits-set `uint32_t` sentinel, negotiation fails before any swapchain
configuration is produced. -/
theorem extent_spec (caps : SurfaceCapabilities)
    (formats : List SurfaceFormat) (modes : List Nat) (g p : Nat) :
    (∀ cfg, negotiateSurface caps formats modes g p = .ok cfg →
      cfg.imageExtent = caps.currentExtent) ∧
    (caps.currentExtent.width = uint32Max →
      ∃ e, negotiateSurface caps formats modes g p = .error e) := by
  constructor
  · intro cfg h
    unfold negotiateSurface at h
    split at h
    · exact absurd h (by simp)
    · split at h
      · exact absurd h (by simp)
      · simp only [Except.ok.injEq] at h
        subst h
        rfl
  · intro hw
    unfold negotiateSurface
    split
    · exact ⟨.insufficientSupport, rfl⟩
    · rw [if_pos (by simp [hw])]
      exact ⟨.extentUnset, rfl⟩

/-- Witness for C9: a successful negotiation copies the 800x600 current
extent, and the sentinel width makes negotiation fail. -/
theorem extent_spec_witness :
    (∀ cfg, negotiateSurface ⟨2, 0, ⟨800, 600⟩, 0⟩ [⟨50, 0⟩] [2] 1 1 =
        .ok cfg → cfg.imageExtent = ⟨800, 600⟩) ∧
    ∃ e, negotiateSurface ⟨2, 0, ⟨uint32Max, 600⟩, 0⟩ [⟨50, 0⟩] [2] 1 1 =
      .error e :=
  ⟨(extent_spec ⟨2, 0, ⟨800, 600⟩, 0⟩ [⟨50, 0⟩] [2] 1 1).1,
   (extent_spec ⟨2, 0, ⟨uint32Max, 600⟩, 0⟩ [⟨50, 0⟩] [2] 1 1).2 rfl⟩

/-- Counterexample for C8 as stated: negotiation can fail fatally with both
queried lists non-empty, namely when the current-extent width is the
`uint32_t` sentinel, so "fails fatally iff a list is empty" is false. -/
theorem negotiation_failure_iff_cex :
    negotiateSurface ⟨2, 0, ⟨uint32Max, 600⟩, 0⟩ [⟨50, 0⟩] [2] 0 0 =
      .error .extentUnset ∧
    ([⟨50, 0⟩] : List SurfaceFormat) ≠ [] ∧ ([2] : List Nat) ≠ [] := by
  refine ⟨rfl, by simp, by simp⟩

/-- C8 (amended). Surface negotiation fails with the
insufficient-surface-support error if and only if the queried surface-format
list is empty or the queried present-mode list is empty. -/
theorem insufficient_support_error_iff (caps : SurfaceCapabilities)
    (formats : List SurfaceFormat) (modes : List Nat) (g p : Nat) :
    negotiateSurface caps formats modes g p =
        .error .insufficientSupport ↔
      formats = [] ∨ modes = [] := by
  unfold negotiateSurface
  split
  next hcond =>
    simp only [Bool.or_eq_true, List.isEmpty_iff] at hcond
    exact iff_of_true rfl hcond
  next hcond =>
    simp only [Bool.or_eq_true, List.isEmpty_iff] at hcond
    push_neg at hcond
    refine iff_of_false ?_ (by tauto)
    split
    · simp
    · simp

/-- Witness for C8 (amended): an empty format list yields the
insufficient-support error. -/
theorem insufficient_support_error_iff_witness :
    negotiateSurface ⟨2, 0, ⟨800, 600⟩, 0⟩ [] [2] 0 0 =
      .error .insufficientSupport :=
  (insufficient_support_error_iff ⟨2, 0, ⟨800, 600⟩, 0⟩ [] [2] 0 0).mpr
    (Or.inl rfl)

/-! ## Device selection -/

/-- Once the accumulator holds a discrete device, the selection loop never
replaces it. -/
theorem selectLoop_discrete_absorb (l : List PhysicalDeviceInfo) :
    ∀ acc : PhysicalDeviceInfo, acc.discrete = true → selectLoop l acc = acc := by
  induction l with
  | nil => intro acc _; rfl
  | cons d rest ih =>
      intro acc h
      simpa [selectLoop, h] using ih acc h

/-- The selection loop ignores unsuitable candidates. -/
theorem selectLoop_no_suitable (l : List PhysicalDeviceInfo) :
    ∀ acc : PhysicalDeviceInfo,
    (∀ i ∈ l, suitableInfo i = false) → selectLoop l acc = acc := by
  induction l with
  | nil => intro acc _; rfl
  | cons d rest ih =>
      intro acc h
      have hd : suitableInfo d = false := h d (List.mem_cons_self d rest)
      have hrest : ∀ i ∈ rest, suitableInfo i = false :=
        fun i hi => h i (List.mem_cons_of_mem d hi)
      simpa [selectLoop, hd] using ih acc hrest

/-- The selection loop processes appended lists sequentially. -/
theorem selectLoop_append (l1 l2 : List PhysicalDeviceInfo) :
    ∀ acc : PhysicalDeviceInfo,
    selectLoop (l1 ++ l2) acc = selectLoop l2 (selectLoop l1 acc) := by
  induction l1 with
  | nil => intro acc; rfl
  | cons d rest ih =>
      intro acc
      simp only [List.cons_append, selectLoop]
      exact ih _

/-- The selection loop returns its accumulator or a suitable list element. -/
theorem selectLoop_mem (l : List PhysicalDeviceInfo) :
    ∀ acc : PhysicalDeviceInfo,
    selectLoop l acc = acc ∨
      ∃ i ∈ l, suitableInfo i = true ∧ selectLoop l acc = i := by
  induction l with
  | nil => intro acc; exact Or.inl rfl
  | cons d rest ih =>
      intro acc
      by_cases hc : (suitableInfo d && !acc.discrete) = true
      · have hres : selectLoop (d :: rest) acc = selectLoop rest d := by
          simp [selectLoop, hc]
        have hd : suitableInfo d = true := (Bool.and_eq_true _ _).mp hc |>.1
        rcases ih d with h | ⟨i, hi, hsuit, heq⟩
        · exact Or.inr ⟨d, List.mem_cons_self d rest, hd, hres.trans h⟩
        · exact Or.inr ⟨i, List.mem_cons_of_mem d hi, hsuit, hres.trans heq⟩
      · have hres : selectLoop (d :: rest) acc = selectLoop rest acc := by
          simp only [selectLoop]
          rw [if_neg hc]
        rcases ih acc with h | ⟨i, hi, hsuit, heq⟩
        · exact Or.inl (hres.trans h)
        · exact Or.inr ⟨i, List.mem_cons_of_mem d hi, hsuit, hres.trans heq⟩

/-- If the accumulator is not discrete and no suitable element of the list is
discrete, the selection result is not discrete. -/
theorem selectLoop_nondiscrete (l : List PhysicalDeviceInfo) :
    ∀ acc : PhysicalDeviceInfo, acc.discrete = false →
    (∀ i ∈ l, suitableInfo i = true → i.discrete = false) →
    (selectLoop l acc).discrete = false := by
  induction l with
  | nil => intro acc ha _; exact ha
  | cons d rest ih =>
      intro acc ha h
      have hrest : ∀ i ∈ rest, suitableInfo i = true → i.discrete = false :=
        fun i hi => h i (List.mem_cons_of_mem d hi)
      by_cases hc : (suitableInfo d && !acc.discrete) = true
      · have hd : suitableInfo d = true := (Bool.and_eq_true _ _).mp hc |>.1
        have hdd : d.discrete = false := h d (List.mem_cons_self d rest) hd
        have hres : selectLoop (d :: rest) acc = selectLoop rest d := by
          simp [selectLoop, hc]
        rw [hres]
        exact ih d hdd hrest
      · have hres : selectLoop (d :: rest) acc = selectLoop rest acc := by
          simp only [selectLoop]
          rw [if_neg hc]
        rw [hres]
        exact ih acc ha hrest

/-- If the accumulator is well-formed and some list element is suitable, the
selection result is suitable and carries a non-null device handle. -/
theorem selectLoop_good (l : List PhysicalDeviceInfo) :
    ∀ acc : PhysicalDeviceInfo,
    (acc.discrete = true →
      suitableInfo acc = true ∧ acc.device.isSome = true) →
    (∀ i ∈ l, suitableInfo i = true → i.device.isSome = true) →
    ((suitableInfo acc = true ∧ acc.device.isSome = true) ∨
      ∃ i ∈ l, suitableInfo i = true) →
    suitableInfo (selectLoop l acc) = true ∧
      (selectLoop l acc).device.isSome = true := by
  induction l with
  | nil =>
      intro acc _ _ hex
      rcases hex with h | ⟨i, hi, _⟩
      · exact h
      · simp at hi
  | cons d rest ih =>
      intro acc hacc hl hex
      have hlrest : ∀ i ∈ rest, suitableInfo i = true → i.device.isSome = true :=
        fun i hi => hl i (List.mem_cons_of_mem d hi)
      by_cases hc : (suitableInfo d && !acc.discrete) = true
      · have hd : suitableInfo d = true := (Bool.and_eq_true _ _).mp hc |>.1
        have hds : d.device.isSome = true :=
          hl d (List.mem_cons_self d rest) hd
        have hres : selectLoop (d :: rest) acc = selectLoop rest d := by
          simp [selectLoop, hc]
        rw [hres]
        exact ih d (fun _ => ⟨hd, hds⟩) hlrest (Or.inl ⟨hd, hds⟩)
      · have hres : selectLoop (d :: rest) acc = selectLoop rest acc := by
          simp only [selectLoop]
          rw [if_neg hc]
        rw [hres]
        have hex2 : (suitableInfo acc = true ∧ acc.device.isSome = true) ∨
            ∃ i ∈ rest, suitableInfo i = true := by
          rcases hex with h | ⟨i, hi, hsuit⟩
          · exact Or.inl h
          · rcases List.mem_cons.mp hi with rfl | hmem
            · cases hda : acc.discrete with
              | false => exact absurd (by simp [hsuit, hda]) hc
              | true => exact Or.inl (hacc hda)
            · exact Or.inr ⟨i, hmem, hsuit⟩
        exact ih acc hacc hlrest hex2

/-- If the accumulator is not discrete and the list holds a suitable discrete
element, the selection result is one of the suitable discrete elements. -/
theorem selectLoop_exists_discrete (l : List PhysicalDeviceInfo) :
    ∀ acc : PhysicalDeviceInfo, acc.discrete = false →
    (∃ i ∈ l, suitableInfo i = true ∧ i.discrete = true) →
    ∃ i ∈ l, suitableInfo i = true ∧ i.discrete = true ∧
      selectLoop l acc = i := by
  induction l with
  | nil =>
      intro acc _ hex
      simp at hex
  | cons d rest ih =>
      intro acc ha hex
      by_cases hd : suitableInfo d = true ∧ d.discrete = true
      · have hc : (suitableInfo d && !acc.discrete) = true := by
          simp [hd.1, ha]
        have hres : selectLoop (d :: rest) acc = selectLoop rest d := by
          simp [selectLoop, hc]
        refine ⟨d, List.mem_cons_self d rest, hd.1, hd.2, ?_⟩
        rw [hres]
        exact selectLoop_discrete_absorb rest d hd.2
      · have hex2 : ∃ i ∈ rest, suitableInfo i = true ∧ i.discrete = true := by
          rcases hex with ⟨i, hi, hsuit⟩
          rcases List.mem_cons.mp hi with rfl | hmem
          · exact absurd hsuit hd
          · exact ⟨i, hmem, hsuit⟩
        by_cases hc : (suitableInfo d && !acc.discrete) = true
        · have hsd : suitableInfo d = true := (Bool.and_eq_true _ _).mp hc |>.1
          have hdd : d.discrete = false := by
            cases h : d.discrete with
            | false => rfl
            | true => exact absurd ⟨hsd, h⟩ hd
          have hres : selectLoop (d :: rest) acc = selectLoop rest d := by
            simp [selectLoop, hc]
          rcases ih d hdd hex2 with ⟨i, hi, h1, h2, h3⟩
          exact ⟨i, List.mem_cons_of_mem d hi, h1, h2, hres.trans h3⟩
        · have hres : selectLoop (d :: rest) acc = selectLoop rest acc := by
            simp only [selectLoop]
            rw [if_neg hc]
          rcases ih acc ha hex2 with ⟨i, hi, h1, h2, h3⟩
          exact ⟨i, List.mem_cons_of_mem d hi, h1, h2, hres.trans h3⟩

/-- The queue-family scan never changes the stored device handle. -/
theorem scanFamilies_device (fams : List QueueFamily) :
    ∀ (idx : Nat) (info : PhysicalDeviceInfo),
    (scanFamilies fams idx info).device = info.device := by
  induction fams with
  | nil => intro idx info; rfl
  | cons f rest ih =>
      intro idx info
      simp only [scanFamilies]
      rw [ih]
      cases hf : f.graphics <;> cases hp : f.present <;> simp

/-- The queue-family scan never changes the discrete flag. -/
theorem scanFamilies_discrete (fams : List QueueFamily) :
    ∀ (idx : Nat) (info : PhysicalDeviceInfo),
    (scanFamilies fams idx info).discrete = info.discrete := by
  induction fams with
  | nil => intro idx info; rfl
  | cons f rest ih =>
      intro idx info
      simp only [scanFamilies]
      rw [ih]
      cases hf : f.graphics <;> cases hp : f.present <;> simp

/-- The scan leaves the graphics index engaged exactly when it was already
engaged or some scanned family advertises graphics. -/
theorem scanFamilies_graphics_isSome (fams : List QueueFamily) :
    ∀ (idx : Nat) (info : PhysicalDeviceInfo),
    (scanFamilies fams idx info).graphics_family_idx.isSome =
      (info.graphics_family_idx.isSome || fams.any (fun f => f.graphics)) := by
  induction fams with
  | nil => intro idx info; simp [scanFamilies]
  | cons f rest ih =>
      intro idx info
      simp only [scanFamilies]
      rw [ih]
      cases hf : f.graphics <;> cases hp : f.present <;>
        simp [List.any_cons, hf]

/-- The scan leaves the presentation index engaged exactly when it was
already engaged or some scanned family supports presentation. -/
theorem scanFamilies_present_isSome (fams : List QueueFamily) :
    ∀ (idx : Nat) (info : PhysicalDeviceInfo),
    (scanFamilies fams idx info).present_family_idx.isSome =
      (info.present_family_idx.isSome || fams.any (fun f => f.present)) := by
  induction fams with
  | nil => intro idx info; simp [scanFamilies]
  | cons f rest ih =>
      intro idx info
      simp only [scanFamilies]
      rw [ih]
      cases hf : f.graphics <;> cases hp : f.present <;>
        simp [List.any_cons, hp]

/-- The constructed info stores the device handle. -/
theorem mkDeviceInfo_device (d : PhysicalDevice) :
    (mkDeviceInfo d).device = some d.handle := by
  simp [mkDeviceInfo, scanFamilies_device]

/-- The constructed info stores the discrete classification. -/
theorem mkDeviceInfo_discrete (d : PhysicalDevice) :
    (mkDeviceInfo d).discrete = d.discrete := by
  simp [mkDeviceInfo]

/-- The constructed info passes the suitability test exactly when the device
has a graphics-capable family and a presentation-capable family. -/
theorem suitableInfo_mkDeviceInfo (d : PhysicalDevice) :
    suitableInfo (mkDeviceInfo d) = suitableDev d := by
  simp [suitableInfo, mkDeviceInfo, suitableDev, hasGraphicsFamily,
    hasPresentFamily, scanFamilies_graphics_isSome, scanFamilies_present_isSome,
    emptyInfo]

/-- The value-initialised info is unsuitable. -/
theorem suitableInfo_emptyInfo : suitableInfo emptyInfo = false := rfl

/-- Every suitable member of `devices_info` is the constructed info of an
enumerated device. -/
theorem mem_devicesInfo_suitable (ds : List PhysicalDevice)
    (i : PhysicalDeviceInfo) (hi : i ∈ devicesInfo ds)
    (hsuit : suitableInfo i = true) :
    ∃ d ∈ ds, i = mkDeviceInfo d := by
  rcases List.mem_append.mp hi with hrep | hmap
  · have : i = emptyInfo := List.eq_of_mem_replicate hrep
    rw [this, suitableInfo_emptyInfo] at hsuit
    exact absurd hsuit (by simp)
  · rcases List.mem_map.mp hmap with ⟨d, hd, hmk⟩
    exact ⟨d, hd, hmk.symm⟩

/-- The constructed info of every enumerated device is in `devices_info`. -/
theorem mkDeviceInfo_mem_devicesInfo (ds : List PhysicalDevice)
    (d : PhysicalDevice) (hd : d ∈ ds) :
    mkDeviceInfo d ∈ devicesInfo ds :=
  List.mem_append.mpr (Or.inr (List.mem_map.mpr ⟨d, hd, rfl⟩))

/-- C1. For every candidate device list that contains at least one discrete
GPU having both a graphics-capable queue family and a presentation-capable
queue family, device selection returns a discrete device and never a
non-discrete one, regardless of the enumeration order of the candidates. -/
theorem select_prefers_discrete (ds : List PhysicalDevice)
    (hex : ∃ d ∈ ds, d.discrete = true ∧ suitableDev d = true) :
    (selectDevice ds).discrete = true ∧
      ∃ d ∈ ds, d.discrete = true ∧ suitableDev d = true ∧
        selectDevice ds = mkDeviceInfo d := by
  rcases hex with ⟨d, hd, hdisc, hsuit⟩
  have hex2 : ∃ i ∈ devicesInfo ds, suitableInfo i = true ∧ i.discrete = true :=
    ⟨mkDeviceInfo d, mkDeviceInfo_mem_devicesInfo ds d hd,
      by rw [suitableInfo_mkDeviceInfo]; exact hsuit,
      by rw [mkDeviceInfo_discrete]; exact hdisc⟩
  rcases selectLoop_exists_discrete (devicesInfo ds) emptyInfo rfl hex2 with
    ⟨i, hi, h1, h2, h3⟩
  rcases mem_devicesInfo_suitable ds i hi h1 with ⟨e, he, hie⟩
  have hed : e.discrete = true := by
    rw [hie, mkDeviceInfo_discrete] at h2
    exact h2
  have hes : suitableDev e = true := by
    rw [hie, suitableInfo_mkDeviceInfo] at h1
    exact h1
  have hsel : selectDevice ds = mkDeviceInfo e := by
    rw [selectDevice, h3, hie]
  refine ⟨?_, e, he, hed, hes, hsel⟩
  rw [hsel, mkDeviceInfo_discrete]
  exact hed

/-- Witness for C1: the spec example, an integrated device enumerated before
a discrete one, both fully capable; the discrete one is selected. -/
theorem select_prefers_discrete_witness :
    (selectDevice [⟨1, [⟨true, true⟩], false⟩, ⟨2, [⟨true, true⟩], true⟩]).discrete
      = true :=
  (select_prefers_discrete
    [⟨1, [⟨true, true⟩], false⟩, ⟨2, [⟨true, true⟩], true⟩]
    ⟨⟨2, [⟨true, true⟩], true⟩, by decide, by decide, by decide⟩).1

/-- Counterexample for C2 as stated: with two suitable non-discrete devices
and no discrete device, selection returns the second (last) suitable device,
not the first one. -/
theorem select_first_suitable_cex :
    (selectDevice [⟨1, [⟨true, true⟩], false⟩, ⟨2, [⟨true, true⟩], false⟩]).device
        = some 2 ∧
      suitableDev ⟨1, [⟨true, true⟩], false⟩ = true ∧
      suitableDev ⟨2, [⟨true, true⟩], false⟩ = true ∧
      (⟨1, [⟨true, true⟩], false⟩ : PhysicalDevice).discrete = false ∧
      (⟨2, [⟨true, true⟩], false⟩ : PhysicalDevice).discrete = false ∧
      (mkDeviceInfo ⟨1, [⟨true, true⟩], false⟩).device = some 1 ∧
      selectDevice [⟨1, [⟨true, true⟩], false⟩, ⟨2, [⟨true, true⟩], false⟩] ≠
        mkDeviceInfo ⟨1, [⟨true, true⟩], false⟩ := by
  decide

/-- C2 (amended). For every candidate device list that contains no suitable
discrete GPU but at least one suitable device, device selection returns the
last suitable device in enumeration order; in particular, with exactly one
suitable non-discrete device and no discrete device, it returns that
device. -/
theorem select_last_suitable (l1 l2 : List PhysicalDevice) (d : PhysicalDevice)
    (hnodisc : ∀ e ∈ l1 ++ d :: l2, ¬(suitableDev e = true ∧ e.discrete = true))
    (hd : suitableDev d = true)
    (hl2 : ∀ e ∈ l2, suitableDev e = false) :
    selectDevice (l1 ++ d :: l2) = mkDeviceInfo d := by
  have hsplit : devicesInfo (l1 ++ d :: l2) =
      List.replicate (l1 ++ d :: l2).length emptyInfo ++
        (l1.map mkDeviceInfo ++ (mkDeviceInfo d :: l2.map mkDeviceInfo)) := by
    simp [devicesInfo]
  rw [selectDevice, hsplit, selectLoop_append]
  have hrep : selectLoop
      (List.replicate (l1 ++ d :: l2).length emptyInfo) emptyInfo =
      emptyInfo :=
    selectLoop_no_suitable _ emptyInfo
      (fun i hi => by rw [List.eq_of_mem_replicate hi]; rfl)
  rw [hrep, selectLoop_append]
  have hacc1 : (selectLoop (l1.map mkDeviceInfo) emptyInfo).discrete = false := by
    refine selectLoop_nondiscrete _ emptyInfo rfl ?_
    intro i hi hsuit
    rcases List.mem_map.mp hi with ⟨e, he, hmk⟩
    rw [← hmk, mkDeviceInfo_discrete]
    rw [← hmk, suitableInfo_mkDeviceInfo] at hsuit
    have := hnodisc e (List.mem_append.mpr (Or.inl he))
    cases h : e.discrete with
    | false => rfl
    | true => exact absurd ⟨hsuit, h⟩ this
  have hstep : selectLoop (mkDeviceInfo d :: l2.map mkDeviceInfo)
      (selectLoop (l1.map mkDeviceInfo) emptyInfo) =
      selectLoop (l2.map mkDeviceInfo) (mkDeviceInfo d) := by
    simp only [selectLoop]
    rw [if_pos]
    simp [suitableInfo_mkDeviceInfo, hd, hacc1]
  rw [hstep]
  refine selectLoop_no_suitable _ (mkDeviceInfo d) ?_
  intro i hi
  rcases List.mem_map.mp hi with ⟨e, he, hmk⟩
  rw [← hmk, suitableInfo_mkDeviceInfo]
  exact hl2 e he

/-- Witness for C2 (amended): a single suitable non-discrete device, no
discrete device; selection returns exactly that device's info. -/
theorem select_last_suitable_witness :
    selectDevice [⟨1, [⟨true, true⟩], false⟩] =
      mkDeviceInfo ⟨1, [⟨true, true⟩], false⟩ :=
  select_last_suitable [] [] ⟨1, [⟨true, true⟩], false⟩
    (by decide) (by decide) (by decide)

/-- C4. Device selection fails with the no-suitable-device error if and only
if no enumerated device has both a graphics family index and a presentation
family index (the empty list included); whenever selection succeeds, the
selected info has both indices engaged. -/
theorem selection_failure_iff (ds : List PhysicalDevice) :
    ((selectDevice ds).device = none ↔ ∀ d ∈ ds, suitableDev d = false) ∧
    ((selectDevice ds).device ≠ none →
      (selectDevice ds).graphics_family_idx.isSome = true ∧
        (selectDevice ds).present_family_idx.isSome = true) := by
  constructor
  · constructor
    · intro hnone d hd
      by_contra hne
      have hsuit : suitableDev d = true := by
        cases h : suitableDev d with
        | false => exact absurd h hne
        | true => rfl
      have hgood := selectLoop_good (devicesInfo ds) emptyInfo
        (fun h => by simp [emptyInfo] at h)
        (fun i hi hs => by
          rcases mem_devicesInfo_suitable ds i hi hs with ⟨e, _, hie⟩
          rw [hie, mkDeviceInfo_device]
          rfl)
        (Or.inr ⟨mkDeviceInfo d, mkDeviceInfo_mem_devicesInfo ds d hd,
          by rw [suitableInfo_mkDeviceInfo]; exact hsuit⟩)
      rw [selectDevice] at hnone
      rw [hnone] at hgood
      exact absurd hgood.2 (by simp)
    · intro hall
      rw [selectDevice, selectLoop_no_suitable _ emptyInfo]
      · rfl
      · intro i hi
        cases h : suitableInfo i with
        | false => rfl
        | true =>
          rcases mem_devicesInfo_suitable ds i hi h with ⟨e, he, hie⟩
          rw [hie, suitableInfo_mkDeviceInfo, hall e he] at h
          simp at h
  · intro hne
    rcases selectLoop_mem (devicesInfo ds) emptyInfo with h | ⟨i, _, hsuit, heq⟩
    · rw [selectDevice] at hne
      rw [h] at hne
      exact absurd rfl hne
    · have : selectDevice ds = i := by rw [selectDevice, heq]
      rw [this]
      exact (Bool.and_eq_true _ _).mp hsuit

/-! ## Last-qualifying-index characterisation of the queue-family scan -/

/-- The graphics index after a scan: the last qualifying index of the scanned
families, offset by the starting counter value, or the incoming index when no
family qualifies. -/
theorem scanFamilies_graphics_char (fams : List QueueFamily) :
    ∀ (idx : Nat) (info : PhysicalDeviceInfo),
    (scanFamilies fams idx info).graphics_family_idx =
      match lastIdxAux (fun f => f.graphics) fams with
      | some k => some (idx + k)
      | none => info.graphics_family_idx := by
  induction fams with
  | nil => intro idx info; rfl
  | cons f rest ih =>
      intro idx info
      simp only [scanFamilies]
      rw [ih]
      simp only [lastIdxAux]
      cases h : lastIdxAux (fun f => f.graphics) rest with
      | some k =>
          dsimp only []
          congr 1
          omega
      | none =>
          by_cases hf : f.graphics = true <;> by_cases hp : f.present = true <;>
            simp [hf, hp]

/-- The presentation index after a scan: the last qualifying index of the
scanned families, offset by the starting counter value, or the incoming index
when no family qualifies. -/
theorem scanFamilies_present_char (fams : List QueueFamily) :
    ∀ (idx : Nat) (info : PhysicalDeviceInfo),
    (scanFamilies fams idx info).present_family_idx =
      match lastIdxAux (fun f => f.present) fams with
      | some k => some (idx + k)
      | none => info.present_family_idx := by
  induction fams with
  | nil => intro idx info; rfl
  | cons f rest ih =>
      intro idx info
      simp only [scanFamilies]
      rw [ih]
      simp only [lastIdxAux]
      cases h : lastIdxAux (fun f => f.present) rest with
      | some k =>
          dsimp only []
          congr 1
          omega
      | none =>
          by_cases hf : f.graphics = true <;> by_cases hp : f.present = true <;>
            simp [hf, hp]

/-- `lastIdxAux` returns nothing exactly when no element qualifies. -/
theorem lastIdxAux_eq_none (p : QueueFamily → Bool) (l : List QueueFamily) :
    lastIdxAux p l = none ↔ ∀ f ∈ l, p f = false := by
  induction l with
  | nil => simp [lastIdxAux]
  | cons f rest ih =>
      simp only [lastIdxAux]
      cases h : lastIdxAux p rest with
      | some k =>
          refine iff_of_false (by simp) ?_
          intro hall
          have : lastIdxAux p rest = none :=
            ih.mpr (fun g hg => hall g (List.mem_cons_of_mem f hg))
          rw [h] at this
          cases this
      | none =>
          cases hf : p f with
          | true =>
              refine iff_of_false (by simp) ?_
              intro hall
              have := hall f (List.mem_cons_self f rest)
              rw [hf] at this
              cases this
          | false =>
              refine iff_of_true rfl ?_
              intro g hg
              rcases List.mem_cons.mp hg with rfl | hmem
              · exact hf
              · exact ih.mp h g hmem

/-- `lastIdxAux` returns `i` exactly when the element at index `i` qualifies
and no later element does. -/
theorem lastIdxAux_eq_some (p : QueueFamily → Bool) (l : List QueueFamily) :
    ∀ i : Nat, lastIdxAux p l = some i ↔
      (i < l.length ∧ p (l.getD i ⟨false, false⟩) = true ∧
        ∀ f ∈ l.drop (i + 1), p f = false) := by
  induction l with
  | nil => intro i; simp [lastIdxAux]
  | cons f rest ih =>
      intro i
      simp only [lastIdxAux]
      cases h : lastIdxAux p rest with
      | some k =>
          have hk := (ih k).mp h
          constructor
          · intro hi
            injection hi with hi
            subst hi
            refine ⟨by simp [List.length_cons]; omega, ?_, ?_⟩
            · simpa [List.getD_cons_succ] using hk.2.1
            · simpa [List.drop_succ_cons] using hk.2.2
          · rintro ⟨h1, h2, h3⟩
            cases i with
            | zero =>
                have hnone : lastIdxAux p rest = none := by
                  refine (lastIdxAux_eq_none p rest).mpr ?_
                  simpa [List.drop_succ_cons] using h3
                rw [h] at hnone
                cases hnone
            | succ j =>
                have hsome : lastIdxAux p rest = some j := by
                  refine (ih j).mpr ⟨?_, ?_, ?_⟩
                  · simp only [List.length_cons] at h1; omega
                  · simpa [List.getD_cons_succ] using h2
                  · simpa [List.drop_succ_cons] using h3
                rw [h] at hsome
                injection hsome with hjk
                subst hjk
                rfl
      | none =>
          cases hf : p f with
          | true =>
              constructor
              · intro hi
                injection hi with hi
                subst hi
                refine ⟨by simp, by simpa using hf, ?_⟩
                simpa [List.drop_succ_cons] using
                  (lastIdxAux_eq_none p rest).mp h
              · rintro ⟨h1, h2, h3⟩
                cases i with
                | zero => rfl
                | succ j =>
                    have hsome : lastIdxAux p rest = some j := by
                      refine (ih j).mpr ⟨?_, ?_, ?_⟩
                      · simp only [List.length_cons] at h1; omega
                      · simpa [List.getD_cons_succ] using h2
                      · simpa [List.drop_succ_cons] using h3
                    rw [h] at hsome
                    cases hsome
          | false =>
              refine iff_of_false (by simp) ?_
              rintro ⟨h1, h2, h3⟩
              cases i with
              | zero =>
                  rw [List.getD_cons_zero, hf] at h2
                  cases h2
              | succ j =>
                  have hsome : lastIdxAux p rest = some j := by
                    refine (ih j).mpr ⟨?_, ?_, ?_⟩
                    · simp only [List.length_cons] at h1; omega
                    · simpa [List.getD_cons_succ] using h2
                    · simpa [List.drop_succ_cons] using h3
                  rw [h] at hsome
                  cases hsome

/-- The graphics index of a constructed device info is the last qualifying
index of the device's families, or nothing. -/
theorem mkDeviceInfo_graphics_eq (d : PhysicalDevice) :
    (mkDeviceInfo d).graphics_family_idx =
      lastIdxAux (fun f => f.graphics) d.queueFamilies := by
  have h := scanFamilies_graphics_char d.queueFamilies 0
    { emptyInfo with device := some d.handle }
  simp only [mkDeviceInfo]
  rw [h]
  cases hc : lastIdxAux (fun f => f.graphics) d.queueFamilies with
  | some k => simp
  | none => rfl

/-- The presentation index of a constructed device info is the last
qualifying index of the device's families, or nothing. -/
theorem mkDeviceInfo_present_eq (d : PhysicalDevice) :
    (mkDeviceInfo d).present_family_idx =
      lastIdxAux (fun f => f.present) d.queueFamilies := by
  have h := scanFamilies_present_char d.queueFamilies 0
    { emptyInfo with device := some d.handle }
  simp only [mkDeviceInfo]
  rw [h]
  cases hc : lastIdxAux (fun f => f.present) d.queueFamilies with
  | some k => simp
  | none => rfl

/-- C3. For every candidate device, the queue-family scan records as graphics
family index the last index (in scan order) of a family advertising graphics
support, and as presentation family index the last index for which the
surface-support query returned true; each index is absent when no family of
the corresponding kind exists, so an index is present only if the capability
was confirmed for that family. -/
theorem queue_family_scan_last_wins (d : PhysicalDevice) :
    ((mkDeviceInfo d).graphics_family_idx = none ↔
      ∀ f ∈ d.queueFamilies, f.graphics = false) ∧
    (∀ i, (mkDeviceInfo d).graphics_family_idx = some i ↔
      (i < d.queueFamilies.length ∧
        (d.queueFamilies.getD i ⟨false, false⟩).graphics = true ∧
        ∀ f ∈ d.queueFamilies.drop (i + 1), f.graphics = false)) ∧
    ((mkDeviceInfo d).present_family_idx = none ↔
      ∀ f ∈ d.queueFamilies, f.present = false) ∧
    (∀ i, (mkDeviceInfo d).present_family_idx = some i ↔
      (i < d.queueFamilies.length ∧
        (d.queueFamilies.getD i ⟨false, false⟩).present = true ∧
        ∀ f ∈ d.queueFamilies.drop (i + 1), f.present = false)) := by
  refine ⟨?_, ?_, ?_, ?_⟩
  · rw [mkDeviceInfo_graphics_eq]
    exact lastIdxAux_eq_none _ _
  · intro i
    rw [mkDeviceInfo_graphics_eq]
    exact lastIdxAux_eq_some _ _ i
  · rw [mkDeviceInfo_present_eq]
    exact lastIdxAux_eq_none _ _
  · intro i
    rw [mkDeviceInfo_present_eq]
    exact lastIdxAux_eq_some _ _ i

/-- Witness for C3: on a device whose families are graphics-only, then
graphics-and-present, then neither, the scan records graphics index 1 (the
last graphics family, not the first) and presentation index 1. -/
theorem queue_family_scan_last_wins_witness :
    (mkDeviceInfo ⟨7, [⟨true, false⟩, ⟨true, true⟩, ⟨false, false⟩], false⟩).graphics_family_idx
        = some 1 ∧
      (mkDeviceInfo ⟨7, [⟨true, false⟩, ⟨true, true⟩, ⟨false, false⟩], false⟩).present_family_idx
        = some 1 :=
  ⟨((queue_family_scan_last_wins
      ⟨7, [⟨true, false⟩, ⟨true, true⟩, ⟨false, false⟩], false⟩).2.1 1).mpr
      (by decide),
   ((queue_family_scan_last_wins
      ⟨7, [⟨true, false⟩, ⟨true, true⟩, ⟨false, false⟩], false⟩).2.2.2 1).mpr
      (by decide)⟩

/-- Witness for C4: with one fully capable device selection succeeds and the
selected info has both indices engaged; with no capable device it fails. -/
theorem selection_failure_iff_witness :
    ((selectDevice [⟨1, [⟨true, true⟩], false⟩]).graphics_family_idx.isSome
        = true ∧
      (selectDevice [⟨1, [⟨true, true⟩], false⟩]).present_family_idx.isSome
        = true) ∧
    (selectDevice [⟨3, [⟨true, false⟩], false⟩]).device = none :=
  ⟨(selection_failure_iff [⟨1, [⟨true, true⟩], false⟩]).2 (by decide),
   (selection_failure_iff [⟨3, [⟨true, false⟩], false⟩]).1.mpr (by decide)⟩

end VulkanPlayground

namespace VulkanPlaygroundRev0

/-! ## The off-by-one of the earliest revision -/

/-- The family scan of the earliest revision either leaves the selection
unchanged, or selects the candidate recording `idx + j + 1` for some
graphics-capable family at position `j` of the scanned suffix. -/
theorem scanRev0_spec (cand : PhysicalDevice0) (fams : List QueueFamily0) :
    ∀ (idx : Nat) (sel : Selection0),
    scanRev0 cand fams idx sel = sel ∨
      ∃ j, j < fams.length ∧ (fams.getD j ⟨false⟩).graphics = true ∧
        scanRev0 cand fams idx sel =
          { device := some cand.handle, queueFamilyIdx := idx + j + 1 } := by
  induction fams with
  | nil => intro idx sel; exact Or.inl rfl
  | cons f rest ih =>
      intro idx sel
      by_cases hf : f.graphics = true
      · by_cases hdev : sel.device = none
        · refine Or.inr ⟨0, by simp, by simpa using hf, ?_⟩
          simp [scanRev0, hf, hdev]
        · by_cases hdisc : cand.discrete = true
          · refine Or.inr ⟨0, by simp, by simpa using hf, ?_⟩
            simp [scanRev0, hf, hdev, hdisc]
          · have hres : scanRev0 cand (f :: rest) idx sel =
                scanRev0 cand rest (idx + 1) sel := by
              simp [scanRev0, hf, hdev, hdisc]
            rw [hres]
            rcases ih (idx + 1) sel with h | ⟨j, hj, hg, heq⟩
            · exact Or.inl h
            · refine Or.inr ⟨j + 1, by simp [List.length_cons]; omega, ?_, ?_⟩
              · simpa [List.getD_cons_succ] using hg
              · rw [heq]
                congr 1
                omega
      · have hres : scanRev0 cand (f :: rest) idx sel =
            scanRev0 cand rest (idx + 1) sel := by
          simp [scanRev0, hf]
        rw [hres]
        rcases ih (idx + 1) sel with h | ⟨j, hj, hg, heq⟩
        · exact Or.inl h
        · refine Or.inr ⟨j + 1, by simp [List.length_cons]; omega, ?_, ?_⟩
          · simpa [List.getD_cons_succ] using hg
          · rw [heq]
            congr 1
            omega

/-- The device fold of the earliest revision either returns the incoming
selection, or a selection made from one of the devices, recording one more
than a graphics-capable family position of that device. -/
theorem selectRev0_fold (devices : List PhysicalDevice0) :
    ∀ sel : Selection0,
    List.foldl (fun sel d => scanRev0 d d.queueFamilies 0 sel) sel devices =
        sel ∨
      ∃ d ∈ devices, ∃ j, j < d.queueFamilies.length ∧
        (d.queueFamilies.getD j ⟨false⟩).graphics = true ∧
        List.foldl (fun sel d => scanRev0 d d.queueFamilies 0 sel) sel devices =
          { device := some d.handle, queueFamilyIdx := j + 1 } := by
  induction devices with
  | nil => intro sel; exact Or.inl rfl
  | cons d rest ih =>
      intro sel
      simp only [List.foldl_cons]
      rcases scanRev0_spec d d.queueFamilies 0 sel with h | ⟨j, hj, hg, heq⟩
      · rw [h]
        rcases ih sel with h2 | ⟨e, he, j, hj, hg, heq⟩
        · exact Or.inl h2
        · exact Or.inr ⟨e, List.mem_cons_of_mem d he, j, hj, hg, heq⟩
      · rw [heq]
        rcases ih { device := some d.handle, queueFamilyIdx := 0 + j + 1 } with
          h2 | ⟨e, he, i, hi, hg2, heq2⟩
        · rw [h2]
          refine Or.inr ⟨d, List.mem_cons_self d rest, j, hj, hg, ?_⟩
          congr 1
          omega
        · exact Or.inr ⟨e, List.mem_cons_of_mem d he, i, hi, hg2, heq2⟩

/-- C10. In the earliest revision, for every device selected, the recorded
queue family index equals the position of the qualifying graphics-capable
family plus one: the loop counter is incremented before the index is
recorded, so the index used for logical-device queue creation is one greater
than the index of a family that actually advertised graphics support. -/
theorem rev0_queue_index_off_by_one (devices : List PhysicalDevice0) (h : Nat)
    (hsel : (selectRev0 devices).device = some h) :
    ∃ d ∈ devices, d.handle = h ∧ ∃ j, j < d.queueFamilies.length ∧
      (d.queueFamilies.getD j ⟨false⟩).graphics = true ∧
      (selectRev0 devices).queueFamilyIdx = j + 1 := by
  rcases selectRev0_fold devices initSelection0 with heq | ⟨d, hd, j, hj, hg, heq⟩
  · rw [selectRev0] at hsel
    rw [heq] at hsel
    cases hsel
  · have hres : selectRev0 devices =
        { device := some d.handle, queueFamilyIdx := j + 1 } := heq
    rw [hres] at hsel
    injection hsel with hsel
    exact ⟨d, hd, hsel, j, hj, hg, by rw [hres]⟩

/-- Witness for C10: one device whose only graphics-capable family sits at
position 1; the recorded index is 2, one past it. -/
theorem rev0_queue_index_off_by_one_witness :
    ∃ d ∈ [(⟨5, [⟨false⟩, ⟨true⟩], false⟩ : PhysicalDevice0)],
      d.handle = 5 ∧ ∃ j, j < d.queueFamilies.length ∧
        (d.queueFamilies.getD j ⟨false⟩).graphics = true ∧
        (selectRev0 [⟨5, [⟨false⟩, ⟨true⟩], false⟩]).queueFamilyIdx = j + 1 :=
  rev0_queue_index_off_by_one [⟨5, [⟨false⟩, ⟨true⟩], false⟩] 5 rfl

end VulkanPlaygroundRev0
